import Mathlib

/-!
Verification of the connection/session core of BinaryOptionsTools-v2
(`BinaryOptionsToolsV2/src/{validator,config,stream,pocketoption}.rs`).

The validator engine, the stream consumption helper and the configuration
builder are shallowly embedded below; machine integers are modelled as `Nat`
(no arithmetic overflows occur in the embedded fragment), Rust `Result` as
`Except`, a Rust panic as `Option.none`, and the abstract foreign (Python)
callable held by a `Custom` validator as an abstract payload type `κ`
together with an evaluation function supplied as a parameter.
-/

/-- A raw frame is validated through its string projection
(`message.to_string()` in `validator.rs`). -/
abbrev Frame := String

/-- Embedding of `RawValidator` (`validator.rs`, lines 70-91).
`κ` is the type of the abstract foreign callable held by the `Custom`
variant (an `Arc<PyObject>` in the source); the `regex` variant holds the
compiled matcher, a total boolean function of the frame text, which is what
a successfully compiled `regex::Regex` provides through `is_match`. -/
inductive RawValidator (κ : Type) : Type where
  /-- Variant `RawValidator::None()`: no validation, always true. -/
  | none : RawValidator κ
  /-- Variant `RawValidator::Regex`: holds a compiled regular expression. -/
  | regex (matcher : String → Bool) : RawValidator κ
  /-- Variant `RawValidator::StartsWith`. -/
  | startsWith (pat : String) : RawValidator κ
  /-- Variant `RawValidator::EndsWith`. -/
  | endsWith (pat : String) : RawValidator κ
  /-- Variant `RawValidator::Contains`. -/
  | contains (pat : String) : RawValidator κ
  /-- Variant `RawValidator::All(ArrayValidator)`: all contained validators pass. -/
  | all (vs : List (RawValidator κ)) : RawValidator κ
  /-- Variant `RawValidator::Any(ArrayValidator)`: some contained validator passes. -/
  | any (vs : List (RawValidator κ)) : RawValidator κ
  /-- Variant `RawValidator::Not(BoxedValidator)`: inverts the inner validator. -/
  | not (v : RawValidator κ) : RawValidator κ
  /-- Variant `RawValidator::Custom(PyCustom)`: an abstract foreign callable. -/
  | custom (f : κ) : RawValidator κ

/-- Contiguous-sublist check on character lists, modelling the substring
search behind Rust `str::contains`. -/
def charsInfix (pat : List Char) : List Char → Bool
  | [] => pat.isEmpty
  | c :: rest => pat.isPrefixOf (c :: rest) || charsInfix pat rest

/-- Rust `str::contains` (substring containment), used by the `Contains`
leaf in `RawValidator::validate`. -/
def strContains (s pat : String) : Bool :=
  charsInfix pat.data s.data

mutual

/-- Embedding of `RawValidator::validate` (`validator.rs`, lines 149-163).
`run f m` models calling the foreign callable `f` on the frame text `m`
under the GIL and extracting a boolean (`PyCustom::validate`, lines
172-188): `Option.none` models the panic the source raises via `expect`
when the callable fails or returns a non-boolean.  A result of
`Option.none` for the whole evaluation therefore models a panic escaping
`validate`. -/
def validate {κ : Type} (run : κ → String → Option Bool) :
    RawValidator κ → Frame → Option Bool
  | .none, _ => some true
  | .regex r, m => some (r m)
  | .startsWith pat, m => some (m.startsWith pat)
  | .endsWith pat, m => some (m.endsWith pat)
  | .contains pat, m => some (strContains m pat)
  | .not v, m =>
    match validate run v m with
    | Option.none => Option.none
    | some b => some (!b)
  | .all vs, m => validateAll run vs m
  | .any vs, m => validateAny run vs m
  | .custom f, m => run f m

/-- Embedding of `ArrayValidator::validate_all` (`validator.rs`, lines
193-195): `self.0.iter().all(|d| d.validate(message))`, with the left-to-right
short-circuit of the iterator and panic propagation made explicit. -/
def validateAll {κ : Type} (run : κ → String → Option Bool) :
    List (RawValidator κ) → Frame → Option Bool
  | [], _ => some true
  | v :: vs, m =>
    match validate run v m with
    | Option.none => Option.none
    | some false => some false
    | some true => validateAll run vs m

/-- Embedding of `ArrayValidator::validate_any` (`validator.rs`, lines
198-200): `self.0.iter().any(|d| d.validate(message))`. -/
def validateAny {κ : Type} (run : κ → String → Option Bool) :
    List (RawValidator κ) → Frame → Option Bool
  | [], _ => some false
  | v :: vs, m =>
    match validate run v m with
    | Option.none => Option.none
    | some true => some true
    | some false => validateAny run vs m

end

/-- Embedding of `impl Default for RawValidator` (`validator.rs`, lines
136-140): the default construction is the accept-all validator. -/
def rawValidatorDefault (κ : Type) : RawValidator κ :=
  RawValidator.none

/-- Embedding of `RawValidator::new_regex` (`validator.rs`, lines 98-101):
`Regex::new(&regex)?` is the compilation function of the external `regex`
crate, taken here as a parameter `regexNew` producing either a compile
error or a total matcher; a compile failure is propagated by `?` and a
success is wrapped in the `Regex` variant. -/
def new_regex {κ : Type} (regexNew : String → Except String (String → Bool))
    (pat : String) : Except String (RawValidator κ) :=
  match regexNew pat with
  | .error e => .error e
  | .ok m => .ok (RawValidator.regex m)

/-- Validators with no `Custom` variant anywhere inside (the pure fragment
of the validator engine; `validator.rs` lines 70-91 minus `Custom`). -/
inductive NoCustom {κ : Type} : RawValidator κ → Prop where
  | none : NoCustom RawValidator.none
  | regex (r : String → Bool) : NoCustom (RawValidator.regex r)
  | startsWith (pat : String) : NoCustom (RawValidator.startsWith pat)
  | endsWith (pat : String) : NoCustom (RawValidator.endsWith pat)
  | contains (pat : String) : NoCustom (RawValidator.contains pat)
  | all (vs : List (RawValidator κ)) (h : ∀ v ∈ vs, NoCustom v) :
      NoCustom (RawValidator.all vs)
  | any (vs : List (RawValidator κ)) (h : ∀ v ∈ vs, NoCustom v) :
      NoCustom (RawValidator.any vs)
  | not (v : RawValidator κ) (h : NoCustom v) : NoCustom (RawValidator.not v)

mutual

/-- World-passing evaluation of `RawValidator::validate`: identical
dispatch to `validate`, but the call to the foreign callable of a `Custom`
validator (`PyCustom::validate`, `validator.rs` lines 172-188) is modelled
by an `oracle` that may read and mutate an external world `W` (the state
of the host interpreter) and may fail (`Option.none` result, modelling a
raised exception or non-boolean return, which the source turns into a
panic via `expect`).  All other variants never touch the world. -/
def validateW {κ W : Type} (oracle : κ → String → W → Option Bool × W) :
    RawValidator κ → Frame → W → Option (Bool × W)
  | .none, _, w => some (true, w)
  | .regex r, m, w => some (r m, w)
  | .startsWith pat, m, w => some (m.startsWith pat, w)
  | .endsWith pat, m, w => some (m.endsWith pat, w)
  | .contains pat, m, w => some (strContains m pat, w)
  | .not v, m, w =>
    match validateW oracle v m w with
    | Option.none => Option.none
    | some (b, w') => some (!b, w')
  | .all vs, m, w => validateAllW oracle vs m w
  | .any vs, m, w => validateAnyW oracle vs m w
  | .custom f, m, w =>
    match oracle f m w with
    | (Option.none, _) => Option.none
    | (some b, w') => some (b, w')

/-- World-passing `ArrayValidator::validate_all`. -/
def validateAllW {κ W : Type} (oracle : κ → String → W → Option Bool × W) :
    List (RawValidator κ) → Frame → W → Option (Bool × W)
  | [], _, w => some (true, w)
  | v :: vs, m, w =>
    match validateW oracle v m w with
    | Option.none => Option.none
    | some (false, w') => some (false, w')
    | some (true, w') => validateAllW oracle vs m w'

/-- World-passing `ArrayValidator::validate_any`. -/
def validateAnyW {κ W : Type} (oracle : κ → String → W → Option Bool × W) :
    List (RawValidator κ) → Frame → W → Option (Bool × W)
  | [], _, w => some (false, w)
  | v :: vs, m, w =>
    match validateW oracle v m w with
    | Option.none => Option.none
    | some (true, w') => some (true, w')
    | some (false, w') => validateAnyW oracle vs m w'

end

mutual

/-- Nesting depth of a validator (leaves have depth zero). -/
def depth {κ : Type} : RawValidator κ → Nat
  | .not v => depth v + 1
  | .all vs => depthList vs + 1
  | .any vs => depthList vs + 1
  | _ => 0

/-- Maximum nesting depth over a list of validators. -/
def depthList {κ : Type} : List (RawValidator κ) → Nat
  | [] => 0
  | v :: vs => max (depth v) (depthList vs)

end

mutual

/-- Fuel-bounded evaluation of `RawValidator::validate`: performs exactly
the dispatch of `validate` but counts recursion depth against `fuel`.
The outer `Option.none` means the fuel was exhausted; `some r` means the
evaluation terminated with result `r` (where `r` follows the panic
convention of `validate`). -/
def validateFuel {κ : Type} (run : κ → String → Option Bool) :
    Nat → RawValidator κ → Frame → Option (Option Bool)
  | 0, _, _ => Option.none
  | _ + 1, .none, _ => some (some true)
  | _ + 1, .regex r, m => some (some (r m))
  | _ + 1, .startsWith pat, m => some (some (m.startsWith pat))
  | _ + 1, .endsWith pat, m => some (some (m.endsWith pat))
  | _ + 1, .contains pat, m => some (some (strContains m pat))
  | fuel + 1, .not v, m =>
    match validateFuel run fuel v m with
    | Option.none => Option.none
    | some Option.none => some Option.none
    | some (some b) => some (some (!b))
  | fuel + 1, .all vs, m => validateAllFuel run fuel vs m
  | fuel + 1, .any vs, m => validateAnyFuel run fuel vs m
  | _ + 1, .custom f, m => some (run f m)

/-- Fuel-bounded `ArrayValidator::validate_all`. -/
def validateAllFuel {κ : Type} (run : κ → String → Option Bool) :
    Nat → List (RawValidator κ) → Frame → Option (Option Bool)
  | _, [], _ => some (some true)
  | fuel, v :: vs, m =>
    match validateFuel run fuel v m with
    | Option.none => Option.none
    | some Option.none => some Option.none
    | some (some false) => some (some false)
    | some (some true) => validateAllFuel run fuel vs m

/-- Fuel-bounded `ArrayValidator::validate_any`. -/
def validateAnyFuel {κ : Type} (run : κ → String → Option Bool) :
    Nat → List (RawValidator κ) → Frame → Option (Option Bool)
  | _, [], _ => some (some false)
  | fuel, v :: vs, m =>
    match validateFuel run fuel v m with
    | Option.none => Option.none
    | some Option.none => some Option.none
    | some (some true) => some (some true)
    | some (some false) => validateAnyFuel run fuel vs m

end

/-! ### Request/response correlation (`RawPocketOption::create_raw_order`)

`pocketoption.rs` (lines 581-625) hands the message and the boxed validator
to `PocketOption::create_raw_order[_with_timeout]` of the
`binary_options_tools` crate, whose body is not part of this source tree;
the pending-request mechanics below are therefore modelled from the spec. -/

/-- Modelled from the spec: a `PendingRequest` of the request/response
correlator (spec section 3; the implementation lives in
`PocketOption::create_raw_order*` of the `binary_options_tools` crate,
which is not under this source tree).  It carries the validator registered
against the inbound fan-out and a single-fulfillment completion slot,
which is `Option.none` until the request is fulfilled and afterwards holds
the matched frame. -/
structure PendingRequest (κ : Type) where
  validator : RawValidator κ
  slot : Option Frame := Option.none

/-- Modelled from the spec: delivery of one inbound frame to a pending
correlated request.  A request whose slot is already filled is deregistered
and ignores the frame (no further matching, first-match-wins); an
unfulfilled request is fulfilled exactly when its validator accepts the
frame. -/
def deliver {κ : Type} (run : κ → String → Option Bool)
    (p : PendingRequest κ) (frame : Frame) : PendingRequest κ :=
  match p.slot with
  | some _ => p
  | Option.none =>
    if validate run p.validator frame = some true then
      { p with slot := some frame }
    else p

/-- Modelled from the spec: delivery of a whole inbound frame sequence, in
the single global inbound order, to one pending correlated request. -/
def deliverAll {κ : Type} (run : κ → String → Option Bool)
    (p : PendingRequest κ) (frames : List Frame) : PendingRequest κ :=
  frames.foldl (deliver run) p

/-! ### Stream consumption (`stream.rs`) -/

/-- State of a `Fuse<BoxStream>` handle (`PyStream`, `stream.rs` line 35):
an inner stream state of type `σ` plus the fuse flag, which `Fuse` sets
once the inner stream yields `None` so that every later poll returns
`None` without touching the inner stream again. -/
structure FuseState (σ : Type) where
  inner : σ
  done : Bool := false

/-- One poll of the fused stream, given the transition
function `step` of the inner stream (each poll of the inner stream yields an optional item —
a `Result`, here `Except String T` with the error carried as its message
text — and a successor state).  This is the semantics of
`futures_util::stream::Fuse`: a fused handle yields `None` forever; an
inner `None` sets the fuse flag; any `Some` item, including an `Err`
item, passes through without setting the flag. -/
def fuseNext {σ T : Type} (step : σ → Option (Except String T) × σ)
    (f : FuseState σ) : Option (Except String T) × FuseState σ :=
  if f.done then (Option.none, f)
  else
    match step f.inner with
    | (Option.none, s') => (Option.none, { inner := s', done := true })
    | (some i, s') => (some i, { inner := s', done := false })

/-- Outcome of `next_stream` as seen from the binding layer: either an
item, or an iteration-stop exception (`PyStopIteration` when `sync` is
true, `PyStopAsyncIteration` otherwise) carrying a message text. -/
inductive NextOut (T : Type) : Type where
  | item (t : T) : NextOut T
  | stop (sync : Bool) (msg : String) : NextOut T

/-- Embedding of `next_stream` (`stream.rs`, lines 67-104): polls the
fused stream once; an `Ok` item is returned, an `Err` item becomes an
iteration-stop exception carrying the message text of the error, and `None`
becomes an iteration-stop exception with message "Stream exhausted". -/
def nextStream {σ T : Type} (step : σ → Option (Except String T) × σ)
    (sync : Bool) (f : FuseState σ) : NextOut T × FuseState σ :=
  match fuseNext step f with
  | (some (.ok t), f') => (NextOut.item t, f')
  | (some (.error e), f') => (NextOut.stop sync e, f')
  | (Option.none, f') => (NextOut.stop sync "Stream exhausted", f')

/-- A concrete inner stream for witnesses: a list of pending items, one
yielded per poll, `None` when empty. -/
def listStep {T : Type} :
    List (Except String T) → Option (Except String T) × List (Except String T)
  | [] => (Option.none, [])
  | i :: rest => (some i, rest)

/-! ### Configuration (`config.rs`) -/

/-- Embedding of `std::time::Duration`, reduced to the constructor used in `config.rs`:
`Duration::from_secs`. -/
structure Duration : Type where
  secs : Nat
deriving DecidableEq

/-- Embedding of `Duration::from_secs`. -/
def Duration.from_secs (n : Nat) : Duration := ⟨n⟩

/-- Modelled from the spec: the `ConfigBuilder` of the
`binary_options_tools` crate (re-exported through `reimports`, not under
this source tree), the configuration record handed to the session
constructor with fields `{max_allowed_loops, sleep_interval_ms,
reconnect_time_s, connection_init_timeout_s, timeout_s, candidate_urls}`
(spec section 6).  Each field is `Option`-valued and records whether the
corresponding builder setter was applied; `U` is the parsed-URL type. -/
structure ConfigBuilder (U : Type) where
  maxAllowedLoops : Option Nat := Option.none
  sleepInterval : Option Nat := Option.none
  reconnectTime : Option Nat := Option.none
  connectionInitTimeout : Option Nat := Option.none
  timeoutField : Option Duration := Option.none
  defaultConnectionUrl : Option (List U) := Option.none
deriving DecidableEq

/-- Modelled from the spec: `ConfigBuilder::new()`. -/
def ConfigBuilder.new (U : Type) : ConfigBuilder U := {}

/-- Modelled from the spec: builder setter for `max_allowed_loops`. -/
def ConfigBuilder.max_allowed_loops {U : Type} (b : ConfigBuilder U)
    (v : Nat) : ConfigBuilder U := { b with maxAllowedLoops := some v }

/-- Modelled from the spec: builder setter for `sleep_interval`. -/
def ConfigBuilder.sleep_interval {U : Type} (b : ConfigBuilder U)
    (v : Nat) : ConfigBuilder U := { b with sleepInterval := some v }

/-- Modelled from the spec: builder setter for `reconnect_time`. -/
def ConfigBuilder.reconnect_time {U : Type} (b : ConfigBuilder U)
    (v : Nat) : ConfigBuilder U := { b with reconnectTime := some v }

/-- Modelled from the spec: builder setter for the
connection-initialization timeout (`connection_init_timeout_s` in the
configuration record of the spec). -/
def ConfigBuilder.connection_init_timeout {U : Type} (b : ConfigBuilder U)
    (v : Nat) : ConfigBuilder U := { b with connectionInitTimeout := some v }

/-- Modelled from the spec: builder setter for the general timeout. -/
def ConfigBuilder.timeout {U : Type} (b : ConfigBuilder U)
    (v : Duration) : ConfigBuilder U := { b with timeoutField := some v }

/-- Models `HashSet::from_iter` (`config.rs`, line 126): collects the
parsed URLs into a set, collapsing duplicates; embedded as a deduplicated
list. -/
def hashSetOfList {U : Type} [DecidableEq U] (l : List U) : List U :=
  l.dedup

/-- Modelled from the spec: builder setter for the candidate endpoint set
(`default_connection_url`). -/
def ConfigBuilder.default_connection_url {U : Type} (b : ConfigBuilder U)
    (v : List U) : ConfigBuilder U := { b with defaultConnectionUrl := some v }

/-- Embedding of `PyConfig` (`config.rs`, lines 44-73). -/
structure PyConfig : Type where
  max_allowed_loops : Nat
  sleep_interval : Nat
  reconnect_time : Nat
  connection_initialization_timeout_secs : Nat
  timeout_secs : Nat
  urls : List String
deriving DecidableEq

/-- Embedding of `PyConfig::new` (`config.rs`, lines 82-91). -/
def PyConfig.new : PyConfig :=
  { max_allowed_loops := 100
    sleep_interval := 100
    reconnect_time := 5
    connection_initialization_timeout_secs := 30
    timeout_secs := 30
    urls := [] }

/-- Rust `Iterator::collect::<Result<Vec<_>, _>>` (`config.rs`, lines
111-112): applies `f` to every element in order, stopping at and
returning the first error, or the list of all successes. -/
def collectResults {α β : Type} (f : α → Except String β) :
    List α → Except String (List β)
  | [] => .ok []
  | a :: as =>
    match f a with
    | .error e => .error e
    | .ok b =>
      match collectResults f as with
      | .error e => .error e
      | .ok bs => .ok (b :: bs)

/-- Embedding of `PyConfig::build` (`config.rs`, lines 107-131).
`urlParse` is `Url::parse` of the external `url` crate, taken as a
parameter producing either a parse error or a parsed URL of type `U`.
The source first collects `self.urls.iter().map(Url::parse)` into a
`Result<Vec<Url>, _>` (stopping at the first failure), then chains the
builder setters `max_allowed_loops`, `sleep_interval`, `reconnect_time`,
`timeout(Duration::from_secs(timeout_secs))` and
`default_connection_url(HashSet::from_iter(urls?))`. -/
def PyConfig.build {U : Type} [DecidableEq U]
    (urlParse : String → Except String U) (c : PyConfig) :
    Except String (ConfigBuilder U) := do
  let urls ← collectResults urlParse c.urls
  pure ((((((ConfigBuilder.new U).max_allowed_loops
    c.max_allowed_loops).sleep_interval
    c.sleep_interval).reconnect_time
    c.reconnect_time).timeout
    (Duration.from_secs c.timeout_secs)).default_connection_url
    (hashSetOfList urls))

/-- First URL-parse failure in a list of URL strings, if any. -/
def firstParseErr {U : Type} (urlParse : String → Except String U) :
    List String → Option String
  | [] => Option.none
  | u :: us =>
    match urlParse u with
    | .error e => some e
    | .ok _ => firstParseErr urlParse us

/-! ## Helper lemmas -/

lemma validateAll_eq_true_iff {κ : Type} (run : κ → String → Option Bool)
    (vs : List (RawValidator κ)) (m : Frame) :
    validateAll run vs m = some true ↔
      ∀ v ∈ vs, validate run v m = some true := by
  induction vs with
  | nil => simp [validateAll]
  | cons v vs ih =>
    cases hv : validate run v m with
    | none => simp [validateAll, hv]
    | some b =>
      cases b with
      | false => simp [validateAll, hv]
      | true => simp [validateAll, hv, ih]

lemma validateAny_eq_true_iff {κ : Type} (run : κ → String → Option Bool)
    (vs : List (RawValidator κ)) (m : Frame)
    (h : ∀ v ∈ vs, (validate run v m).isSome) :
    validateAny run vs m = some true ↔
      ∃ v ∈ vs, validate run v m = some true := by
  induction vs with
  | nil => simp [validateAny]
  | cons v vs ih =>
    cases hv : validate run v m with
    | none =>
      have := h v (by simp)
      rw [hv] at this
      simp at this
    | some b =>
      cases b with
      | true => simp [validateAny, hv]
      | false =>
        have ih' := ih (fun u hu => h u (by simp [hu]))
        simp [validateAny, hv, ih']

/-! ## Claims -/

/-- C1: for every list `vs` of validators and every frame `m` (such that
the evaluation of each element returns a boolean, i.e. no contained foreign
callable panics), validating `All(vs)` returns true iff every validator in
`vs` validates `m`, validating `Any(vs)` returns true iff at least one
does, the empty `All` validates true and the empty `Any` validates
false. -/
theorem all_any_logical_semantics {κ : Type}
    (run : κ → String → Option Bool) (vs : List (RawValidator κ))
    (m : Frame) (h : ∀ v ∈ vs, (validate run v m).isSome) :
    (validate run (RawValidator.all vs) m = some true ↔
      ∀ v ∈ vs, validate run v m = some true) ∧
    (validate run (RawValidator.any vs) m = some true ↔
      ∃ v ∈ vs, validate run v m = some true) ∧
    validate run (RawValidator.all ([] : List (RawValidator κ))) m
      = some true ∧
    validate run (RawValidator.any ([] : List (RawValidator κ))) m
      = some false := by
  refine ⟨?_, ?_, ?_, ?_⟩
  · show validateAll run vs m = some true ↔ _
    exact validateAll_eq_true_iff run vs m
  · show validateAny run vs m = some true ↔ _
    exact validateAny_eq_true_iff run vs m h
  · simp [validate, validateAll]
  · simp [validate, validateAny]

/-- Witness for C1 at a concrete validator list and frame. -/
theorem all_any_logical_semantics_witness :
    validate (fun (_ : Unit) _ => some true)
      (RawValidator.all [RawValidator.contains "a", RawValidator.none])
      "ab" = some true ∧
    validate (fun (_ : Unit) _ => some true)
      (RawValidator.any [RawValidator.contains "z", RawValidator.none])
      "ab" = some true :=
  ⟨(all_any_logical_semantics (fun (_ : Unit) _ => some true)
      [RawValidator.contains "a", RawValidator.none] "ab"
      (by decide)).1.mpr (by decide),
   (all_any_logical_semantics (fun (_ : Unit) _ => some true)
      [RawValidator.contains "z", RawValidator.none] "ab"
      (by decide)).2.1.mpr (by decide)⟩

/-- C7: double negation is the identity on validation results (even when
the inner evaluation panics, the panic is propagated unchanged), and the
accept-all validator `None()` — which is also the `Default`
construction — returns true on every frame. -/
theorem not_not_and_none_semantics {κ : Type}
    (run : κ → String → Option Bool) (v : RawValidator κ) (m : Frame) :
    validate run (RawValidator.not (RawValidator.not v)) m
      = validate run v m ∧
    validate run RawValidator.none m = some true ∧
    validate run (rawValidatorDefault κ) m = some true := by
  refine ⟨?_, by simp [validate], by simp [rawValidatorDefault, validate]⟩
  cases hv : validate run v m with
  | none => simp [validate, hv]
  | some b => simp [validate, hv]

/-- C2: constructing a regex validator from a pattern the regex engine
rejects surfaces the error of the engine at construction time, and a
successfully constructed regex validator never fails to validate: on every
frame its evaluation returns a boolean (it never panics, whatever the
engine `regexNew` and the pattern were). -/
theorem regex_fails_at_construction_only {κ : Type}
    (regexNew : String → Except String (String → Bool)) (pat : String) :
    (∀ e, regexNew pat = .error e →
      new_regex (κ := κ) regexNew pat = .error e) ∧
    (∀ v, new_regex (κ := κ) regexNew pat = .ok v →
      ∀ (run : κ → String → Option Bool) (m : Frame),
        ∃ b : Bool, validate run v m = some b) := by
  constructor
  · intro e he
    simp [new_regex, he]
  · intro v hv run m
    cases hr : regexNew pat with
    | error e => simp [new_regex, hr] at hv
    | ok matcher =>
      simp [new_regex, hr] at hv
      exact ⟨matcher m, by simp [← hv, validate]⟩

/-- Witness for C2 with a concrete regex-engine model: the pattern `"("`
is rejected at construction, and the validator built from the accepted
pattern `"ab"` evaluates to a boolean on a concrete frame. -/
theorem regex_fails_at_construction_only_witness :
    new_regex (κ := Unit)
      (fun p => if p = "(" then .error "unclosed group"
        else .ok (fun s => s.startsWith p)) "(" = .error "unclosed group" ∧
    ∃ b : Bool, validate (fun (_ : Unit) _ => some true)
      (RawValidator.regex (fun s => s.startsWith "ab")) "abc" = some b :=
  ⟨(regex_fails_at_construction_only (κ := Unit)
      (fun p => if p = "(" then .error "unclosed group"
        else .ok (fun s => s.startsWith p)) "(").1 "unclosed group" rfl,
   (regex_fails_at_construction_only (κ := Unit)
      (fun p => if p = "(" then .error "unclosed group"
        else .ok (fun s => s.startsWith p)) "ab").2
      (RawValidator.regex (fun s => s.startsWith "ab")) rfl
      (fun _ _ => some true) "abc"⟩

/-- C6 counterexample: a `Custom` validator whose foreign callable fails
(raises, or returns a non-boolean) makes `validate` panic — the failure
escapes the `validate` call (result `Option.none`, the panic raised by the
`expect` in the source) instead of being caught and converted into a
validator-evaluation error. -/
theorem custom_failure_escapes_validate :
    validate (fun (_ : Unit) (_ : String) => Option.none)
      (RawValidator.custom ()) "" = Option.none := rfl

/-- C6 amended: evaluating a `Custom` validator returns exactly the
outcome of the foreign call — a boolean when the callable returns one, and
an uncaught panic (`Option.none`) when the callable fails; `validate`
performs no catching or conversion (`PyCustom::validate` deliberately
panics through `expect`). -/
theorem custom_failure_propagates {κ : Type}
    (run : κ → String → Option Bool) (f : κ) (m : Frame) :
    validate run (RawValidator.custom f) m = run f m := rfl

lemma depth_le_depthList {κ : Type} (vs : List (RawValidator κ)) :
    ∀ v ∈ vs, depth v ≤ depthList vs := by
  induction vs with
  | nil => simp
  | cons u us ih =>
    intro v hv
    rcases List.mem_cons.mp hv with h | h
    · subst h
      simp only [depthList]
      exact Nat.le_max_left _ _
    · refine le_trans (ih v h) ?_
      simp only [depthList]
      exact Nat.le_max_right _ _

lemma validateFuel_complete (fuel : Nat) {κ : Type}
    (run : κ → String → Option Bool) (m : Frame) :
    (∀ v : RawValidator κ, depth v < fuel →
      validateFuel run fuel v m = some (validate run v m)) ∧
    (∀ vs : List (RawValidator κ), depthList vs < fuel →
      validateAllFuel run fuel vs m = some (validateAll run vs m) ∧
      validateAnyFuel run fuel vs m = some (validateAny run vs m)) := by
  induction fuel with
  | zero =>
    exact ⟨fun v h => absurd h (Nat.not_lt_zero _),
           fun vs h => absurd h (Nat.not_lt_zero _)⟩
  | succ fuel ih =>
    have hv : ∀ v : RawValidator κ, depth v < fuel + 1 →
        validateFuel run (fuel + 1) v m = some (validate run v m) := by
      intro v hdepth
      cases v with
      | none => simp [validateFuel, validate]
      | regex r => simp [validateFuel, validate]
      | startsWith p => simp [validateFuel, validate]
      | endsWith p => simp [validateFuel, validate]
      | contains p => simp [validateFuel, validate]
      | custom f => simp [validateFuel, validate]
      | not w =>
        have hw : depth w < fuel := by
          simp only [depth] at hdepth
          omega
        have hcall := ih.1 w hw
        cases hval : validate run w m with
        | none => simp [validateFuel, validate, hcall, hval]
        | some b => simp [validateFuel, validate, hcall, hval]
      | all vs =>
        have hd : depthList vs < fuel := by
          simp only [depth] at hdepth
          omega
        have hlist := (ih.2 vs hd).1
        simp [validateFuel, validate, hlist]
      | any vs =>
        have hd : depthList vs < fuel := by
          simp only [depth] at hdepth
          omega
        have hlist := (ih.2 vs hd).2
        simp [validateFuel, validate, hlist]
    have hmemlist : ∀ vs : List (RawValidator κ),
        (∀ v ∈ vs, depth v < fuel + 1) →
        validateAllFuel run (fuel + 1) vs m
          = some (validateAll run vs m) ∧
        validateAnyFuel run (fuel + 1) vs m
          = some (validateAny run vs m) := by
      intro vs
      induction vs with
      | nil =>
        intro _
        simp [validateAllFuel, validateAnyFuel, validateAll, validateAny]
      | cons v us ihl =>
        intro hmem
        have hcall := hv v (hmem v (by simp))
        have ihus := ihl (fun u hu => hmem u (by simp [hu]))
        cases hval : validate run v m with
        | none =>
          simp [validateAllFuel, validateAnyFuel, validateAll, validateAny,
            hcall, hval]
        | some b =>
          cases b <;>
            simp [validateAllFuel, validateAnyFuel, validateAll,
              validateAny, hcall, hval, ihus]
    exact ⟨hv, fun vs hd => hmemlist vs
      (fun v hv' => lt_of_le_of_lt (depth_le_depthList vs v hv') hd)⟩

/-- C8: validator evaluation terminates for every validator and every
frame: with fuel exceeding the nesting depth of the validator, the step-counted
evaluator returns (it never runs out of fuel, at arbitrary finite nesting
depth of `All`/`Any`/`Not` composition), and its result is exactly that of
the structurally recursive total function `validate`. -/
theorem validate_terminates {κ : Type} (run : κ → String → Option Bool)
    (v : RawValidator κ) (m : Frame) :
    validateFuel run (depth v + 1) v m = some (validate run v m) :=
  (validateFuel_complete (depth v + 1) run m).1 v (Nat.lt_succ_self _)

lemma validateAllAnyW_of_elems {κ : Type} (run : κ → String → Option Bool)
    (m : Frame) (vs : List (RawValidator κ))
    (hel : ∀ v ∈ vs, ∃ b : Bool, validate run v m = some b ∧
      ∀ (W : Type) (oracle : κ → String → W → Option Bool × W) (w : W),
        validateW oracle v m w = some (b, w)) :
    (∃ b : Bool, validateAll run vs m = some b ∧
      ∀ (W : Type) (oracle : κ → String → W → Option Bool × W) (w : W),
        validateAllW oracle vs m w = some (b, w)) ∧
    (∃ b : Bool, validateAny run vs m = some b ∧
      ∀ (W : Type) (oracle : κ → String → W → Option Bool × W) (w : W),
        validateAnyW oracle vs m w = some (b, w)) := by
  induction vs with
  | nil =>
    exact ⟨⟨true, by simp [validateAll], fun W oracle w => by
      simp [validateAllW]⟩,
      ⟨false, by simp [validateAny], fun W oracle w => by
        simp [validateAnyW]⟩⟩
  | cons v us ih =>
    obtain ⟨b₀, hb₀, hw₀⟩ := hel v (by simp)
    obtain ⟨⟨ba, hba, hwa⟩, ⟨bo, hbo, hwo⟩⟩ :=
      ih (fun u hu => hel u (by simp [hu]))
    constructor
    · cases b₀ with
      | false =>
        exact ⟨false, by simp [validateAll, hb₀], fun W oracle w => by
          simp [validateAllW, hw₀ W oracle w]⟩
      | true =>
        exact ⟨ba, by simp [validateAll, hb₀, hba], fun W oracle w => by
          simp [validateAllW, hw₀ W oracle w, hwa W oracle w]⟩
    · cases b₀ with
      | true =>
        exact ⟨true, by simp [validateAny, hb₀], fun W oracle w => by
          simp [validateAnyW, hw₀ W oracle w]⟩
      | false =>
        exact ⟨bo, by simp [validateAny, hb₀, hbo], fun W oracle w => by
          simp [validateAnyW, hw₀ W oracle w, hwo W oracle w]⟩

/-- C9: for every validator built without the `Custom` variant, evaluation
is pure and deterministic: it returns a boolean `b` (never panics) that is
the same for every evaluation — in particular it does not depend on the
external world or on how the foreign-call oracle would behave — and the
world-passing evaluation leaves the external world exactly as it found
it. -/
theorem pure_fragment_deterministic {κ : Type}
    (run : κ → String → Option Bool) (v : RawValidator κ) (m : Frame)
    (h : NoCustom v) :
    ∃ b : Bool, validate run v m = some b ∧
      ∀ (W : Type) (oracle : κ → String → W → Option Bool × W) (w : W),
        validateW oracle v m w = some (b, w) := by
  induction h with
  | none =>
    exact ⟨true, by simp [validate], fun W oracle w => by simp [validateW]⟩
  | regex r =>
    exact ⟨r m, by simp [validate], fun W oracle w => by simp [validateW]⟩
  | startsWith p =>
    exact ⟨m.startsWith p, by simp [validate], fun W oracle w => by
      simp [validateW]⟩
  | endsWith p =>
    exact ⟨m.endsWith p, by simp [validate], fun W oracle w => by
      simp [validateW]⟩
  | contains p =>
    exact ⟨strContains m p, by simp [validate], fun W oracle w => by
      simp [validateW]⟩
  | not v hv ih =>
    obtain ⟨b, hb, hbW⟩ := ih
    exact ⟨!b, by simp [validate, hb], fun W oracle w => by
      simp [validateW, hbW W oracle w]⟩
  | all vs hvs ih =>
    obtain ⟨b, hb, hbW⟩ := (validateAllAnyW_of_elems run m vs ih).1
    exact ⟨b, by simpa [validate] using hb, fun W oracle w => by
      simpa [validateW] using hbW W oracle w⟩
  | any vs hvs ih =>
    obtain ⟨b, hb, hbW⟩ := (validateAllAnyW_of_elems run m vs ih).2
    exact ⟨b, by simpa [validate] using hb, fun W oracle w => by
      simpa [validateW] using hbW W oracle w⟩

/-- Witness for C9 at a concrete `Custom`-free validator. -/
theorem pure_fragment_deterministic_witness :
    ∃ b : Bool, validate (fun (_ : Unit) _ => Option.none)
      (RawValidator.not (RawValidator.contains "a")) "bc" = some b ∧
      ∀ (W : Type) (oracle : Unit → String → W → Option Bool × W) (w : W),
        validateW oracle (RawValidator.not (RawValidator.contains "a"))
          "bc" w = some (b, w) :=
  pure_fragment_deterministic (fun (_ : Unit) _ => Option.none)
    (RawValidator.not (RawValidator.contains "a")) "bc"
    (NoCustom.not _ (NoCustom.contains "a"))

lemma deliver_fulfilled {κ : Type} (run : κ → String → Option Bool)
    (p : PendingRequest κ) (r : Frame) (hp : p.slot = some r) (f : Frame) :
    deliver run p f = p := by
  simp [deliver, hp]

lemma deliverAll_fulfilled {κ : Type} (run : κ → String → Option Bool)
    (p : PendingRequest κ) (r : Frame) (hp : p.slot = some r)
    (frames : List Frame) : deliverAll run p frames = p := by
  induction frames with
  | nil => rfl
  | cons f fs ih =>
    show deliverAll run (deliver run p f) fs = p
    rw [deliver_fulfilled run p r hp f]
    exact ih

lemma deliverAll_slot_eq_find {κ : Type} (run : κ → String → Option Bool)
    (val : RawValidator κ) (frames : List Frame) :
    (deliverAll run { validator := val, slot := Option.none } frames).slot
      = frames.find? (fun f => decide (validate run val f = some true)) := by
  induction frames with
  | nil => rfl
  | cons f fs ih =>
    by_cases hm : validate run val f = some true
    · show (deliverAll run
        (deliver run { validator := val, slot := Option.none } f) fs).slot
          = _
      rw [show deliver run { validator := val, slot := Option.none } f
          = { validator := val, slot := some f } by simp [deliver, hm]]
      rw [deliverAll_fulfilled run _ f rfl fs]
      simp [List.find?, hm]
    · show (deliverAll run
        (deliver run { validator := val, slot := Option.none } f) fs).slot
          = _
      rw [show deliver run { validator := val, slot := Option.none } f
          = { validator := val, slot := Option.none } by simp [deliver, hm]]
      rw [ih]
      simp [List.find?, hm]

/-- C3 (the correlator itself lives in the `binary_options_tools` crate,
outside this source tree; `PendingRequest` and frame delivery are modelled
from the spec): a pending correlated request delivered a sequence of
inbound frames resolves with the first frame its validator accepts — no
matter how many non-matching frames precede it — and once its
single-fulfillment slot is filled, delivering any further frames (matching
or not) never changes it: the request is fulfilled at most once. -/
theorem pending_request_first_match_once {κ : Type}
    (run : κ → String → Option Bool) (val : RawValidator κ)
    (frames : List Frame) :
    (deliverAll run { validator := val, slot := Option.none } frames).slot
      = frames.find? (fun f => decide (validate run val f = some true)) ∧
    ∀ (p : PendingRequest κ) (r : Frame) (extra : List Frame),
      p.slot = some r → deliverAll run p extra = p :=
  ⟨deliverAll_slot_eq_find run val frames,
   fun p r extra hp => deliverAll_fulfilled run p r hp extra⟩

/-- Witness for C3: with validator `contains "x"` and inbound frames
`["a", "bxb", "xc"]`, the request resolves with `"bxb"` (the first match),
and a fulfilled request is left unchanged by the later matching frame
`"xc"`. -/
theorem pending_request_first_match_once_witness :
    (deliverAll (fun (_ : Unit) _ => some true)
      { validator := RawValidator.contains "x", slot := Option.none }
      ["a", "bxb", "xc"]).slot = some "bxb" ∧
    deliverAll (fun (_ : Unit) _ => some true)
      { validator := RawValidator.contains "x", slot := some "bxb" }
      ["xc"]
      = { validator := RawValidator.contains "x", slot := some "bxb" } :=
  ⟨(pending_request_first_match_once (fun (_ : Unit) _ => some true)
      (RawValidator.contains "x") ["a", "bxb", "xc"]).1.trans (by decide),
   (pending_request_first_match_once (fun (_ : Unit) _ => some true)
      (RawValidator.contains "x") []).2
      { validator := RawValidator.contains "x", slot := some "bxb" }
      "bxb" ["xc"] rfl⟩

/-- C4 counterexample: on a stream whose pending items are
`[Err "boom", Ok 42]`, the first `next_stream` call reports the in-stream
error `"boom"` (as an iteration-stop exception), yet the next call on the
very same handle yields the item `42`: an in-stream error is not terminal
for the handle, contradicting the claim that after an error every
subsequent call reports end-of-stream and never yields a further item. -/
theorem stream_error_not_terminal :
    nextStream (listStep (T := Nat)) true
      { inner := [Except.error "boom", Except.ok 42], done := false }
      = (NextOut.stop true "boom",
          { inner := [Except.ok 42], done := false }) ∧
    nextStream (listStep (T := Nat)) true
      { inner := [Except.ok 42], done := false }
      = (NextOut.item 42, { inner := [], done := false }) :=
  ⟨rfl, rfl⟩

/-- C4 amended: end-of-stream is terminal — when a poll of the fused
stream yields `None`, the fuse flag of the handle is set, and on a handle whose
fuse flag is set every `next_stream` call reports end-of-stream
(`"Stream exhausted"`) with the state unchanged, so no further item is
ever yielded.  An in-stream error, by contrast, is surfaced to the
consumer as an iteration-stop exception carrying the error message —
terminal for that consumer call — but it does not set the fuse flag, and
a subsequent call on the same handle may still yield an item. -/
theorem stream_end_terminal {σ T : Type}
    (step : σ → Option (Except String T) × σ) (sync : Bool)
    (f : FuseState σ) :
    ((fuseNext step f).1 = Option.none → (fuseNext step f).2.done = true) ∧
    (f.done = true →
      nextStream step sync f
        = (NextOut.stop sync "Stream exhausted", f)) := by
  constructor
  · intro h
    by_cases hd : f.done
    · simp [fuseNext, hd]
    · cases hs : step f.inner with
      | mk item s' =>
        cases item with
        | none => simp [fuseNext, hd, hs]
        | some i => simp [fuseNext, hd, hs] at h
  · intro hd
    simp [nextStream, fuseNext, hd]

/-- Witness for the amended C4: a handle whose fuse flag is set
reports end-of-stream with its state unchanged, and a poll that hits the
end of the inner stream sets the fuse flag. -/
theorem stream_end_terminal_witness :
    nextStream (listStep (T := Nat)) true
      { inner := [Except.ok 7], done := true }
      = (NextOut.stop true "Stream exhausted",
          { inner := [Except.ok 7], done := true }) ∧
    (fuseNext (listStep (T := Nat))
      { inner := [], done := false }).2.done = true :=
  ⟨(stream_end_terminal (listStep (T := Nat)) true
      { inner := [Except.ok 7], done := true }).2 rfl,
   (stream_end_terminal (listStep (T := Nat)) true
      { inner := [], done := false }).1 rfl⟩

/-- C5 (the claim is right and the code is a slip): `PyConfig::build`
never applies `connection_initialization_timeout_secs` to the builder —
whatever the configuration, the connection-init-timeout of the built builder
setting is untouched — and, concretely, building a configuration whose
`connection_initialization_timeout_secs` is 99 yields exactly the same
builder as building the default configuration (whose value is 30): the
sixth field of the record is silently dropped, contradicting the claim
and the own documentation of `build` that it populates the builder with the
values set in `PyConfig`. -/
theorem build_drops_connection_init_timeout :
    (∀ {U : Type} [DecidableEq U]
      (urlParse : String → Except String U) (c : PyConfig),
      (PyConfig.build urlParse c).map (fun b => b.connectionInitTimeout)
        = (PyConfig.build urlParse c).map
            (fun _ => (Option.none : Option Nat))) ∧
    PyConfig.build (fun s => Except.ok s)
      { PyConfig.new with connection_initialization_timeout_secs := 99 }
      = PyConfig.build (fun s => Except.ok s) PyConfig.new := by
  constructor
  · intro U inst urlParse c
    cases h : collectResults urlParse c.urls with
    | error e => simp [PyConfig.build, h, Except.map]
    | ok parsed =>
      simp [PyConfig.build, h, Except.map,
        ConfigBuilder.default_connection_url,
        ConfigBuilder.timeout, ConfigBuilder.reconnect_time,
        ConfigBuilder.sleep_interval, ConfigBuilder.max_allowed_loops,
        ConfigBuilder.new]
  · rfl

lemma collectResults_error_iff {U : Type}
    (urlParse : String → Except String U) (l : List String) (e : String) :
    collectResults urlParse l = .error e ↔
      firstParseErr urlParse l = some e := by
  induction l with
  | nil => simp [collectResults, firstParseErr]
  | cons u us ih =>
    cases hu : urlParse u with
    | error e' => simp [collectResults, firstParseErr, hu]
    | ok b =>
      cases hrec : collectResults urlParse us with
      | error e' =>
        simp only [collectResults, firstParseErr, hu, hrec]
        rw [← ih]
        simp [hrec]
      | ok bs =>
        simp only [collectResults, firstParseErr, hu, hrec]
        rw [← ih]
        simp [hrec]

lemma firstParseErr_some_iff {U : Type}
    (urlParse : String → Except String U) (l : List String) :
    (∃ e, firstParseErr urlParse l = some e) ↔
      ∃ s ∈ l, ∃ e, urlParse s = .error e := by
  induction l with
  | nil => simp [firstParseErr]
  | cons u us ih =>
    cases hu : urlParse u with
    | error e' => simp [firstParseErr, hu]
    | ok b => simp [firstParseErr, hu, ih]

lemma collectResults_ok_mem {U : Type}
    (urlParse : String → Except String U) :
    ∀ (l : List String) (parsed : List U),
      collectResults urlParse l = .ok parsed →
      ∀ u, u ∈ parsed ↔ ∃ s ∈ l, urlParse s = .ok u := by
  intro l
  induction l with
  | nil =>
    intro parsed hp u
    simp only [collectResults] at hp
    cases hp
    simp
  | cons a as ih =>
    intro parsed hp u
    cases ha : urlParse a with
    | error e => simp [collectResults, ha] at hp
    | ok b =>
      cases hrec : collectResults urlParse as with
      | error e => simp [collectResults, ha, hrec] at hp
      | ok bs =>
        simp only [collectResults, ha, hrec] at hp
        cases hp
        constructor
        · intro hm
          rcases List.mem_cons.mp hm with h | h
          · exact ⟨a, by simp, by rw [ha, h]⟩
          · obtain ⟨s, hs, hsu⟩ := (ih bs hrec u).mp h
            exact ⟨s, by simp [hs], hsu⟩
        · rintro ⟨s, hs, hsu⟩
          rcases List.mem_cons.mp hs with h | h
          · subst h
            rw [ha] at hsu
            cases hsu
            simp
          · exact List.mem_cons.mpr (Or.inr ((ih bs hrec u).mpr ⟨s, h, hsu⟩))

/-- C10: `PyConfig::build` fails exactly when some entry of `urls` fails
to parse — and the error it returns is the first parse failure in list
order — and on success the candidate endpoint set handed to the builder
is the list of parsed URLs with duplicates collapsed: it has no duplicate
entries, and it contains a URL exactly when some entry of `urls` parses
to it. -/
theorem build_first_error_and_dedup {U : Type} [DecidableEq U]
    (urlParse : String → Except String U) (c : PyConfig) :
    (∀ e, PyConfig.build urlParse c = .error e ↔
      firstParseErr urlParse c.urls = some e) ∧
    ((∃ e, PyConfig.build urlParse c = .error e) ↔
      ∃ s ∈ c.urls, ∃ e, urlParse s = .error e) ∧
    (∀ b, PyConfig.build urlParse c = .ok b →
      ∃ parsed, collectResults urlParse c.urls = .ok parsed ∧
        b.defaultConnectionUrl = some (hashSetOfList parsed) ∧
        (hashSetOfList parsed).Nodup ∧
        ∀ u, u ∈ hashSetOfList parsed ↔ ∃ s ∈ c.urls, urlParse s = .ok u) := by
  have herr : ∀ e, PyConfig.build urlParse c = .error e ↔
      collectResults urlParse c.urls = .error e := by
    intro e
    cases h : collectResults urlParse c.urls with
    | error e' => simp [PyConfig.build, h]
    | ok parsed => simp [PyConfig.build, h]
  refine ⟨?_, ?_, ?_⟩
  · intro e
    rw [herr e]
    exact collectResults_error_iff urlParse c.urls e
  · rw [← firstParseErr_some_iff urlParse c.urls]
    constructor
    · rintro ⟨e, he⟩
      exact ⟨e, (collectResults_error_iff urlParse c.urls e).mp
        ((herr e).mp he)⟩
    · rintro ⟨e, he⟩
      exact ⟨e, (herr e).mpr
        ((collectResults_error_iff urlParse c.urls e).mpr he)⟩
  · intro b hb
    cases h : collectResults urlParse c.urls with
    | error e =>
      rw [(herr e).mpr h] at hb
      cases hb
    | ok parsed =>
      refine ⟨parsed, rfl, ?_, List.nodup_dedup parsed, ?_⟩
      · simp only [PyConfig.build, h, bind, Except.bind, pure,
          Except.pure] at hb
        cases hb
        rfl
      · intro u
        rw [show hashSetOfList parsed = parsed.dedup from rfl,
          List.mem_dedup]
        exact collectResults_ok_mem urlParse c.urls parsed h u

/-- Witness for C10: a URL list with a bad entry fails with that first
parse error, and a URL list with a duplicate builds a deduplicated
candidate set. -/
theorem build_first_error_and_dedup_witness :
    PyConfig.build (fun s => if s = "bad"
        then Except.error ("invalid url: " ++ s) else Except.ok s)
      { PyConfig.new with urls := ["a", "bad", "b"] }
      = .error "invalid url: bad" ∧
    ∃ parsed, collectResults (fun s => (Except.ok s : Except String String))
        ["a", "b", "a"] = .ok parsed ∧
      ({ maxAllowedLoops := some 100, sleepInterval := some 100,
         reconnectTime := some 5, connectionInitTimeout := Option.none,
         timeoutField := some ⟨30⟩,
         defaultConnectionUrl := some ["b", "a"] } :
          ConfigBuilder String).defaultConnectionUrl
        = some (hashSetOfList parsed) ∧
      (hashSetOfList parsed).Nodup ∧
      ∀ u, u ∈ hashSetOfList parsed ↔
        ∃ s ∈ ["a", "b", "a"], (Except.ok s : Except String String)
          = .ok u :=
  ⟨(build_first_error_and_dedup (fun s => if s = "bad"
        then Except.error ("invalid url: " ++ s) else Except.ok s)
      { PyConfig.new with urls := ["a", "bad", "b"] }).1
      "invalid url: bad" |>.mpr (by decide),
   (build_first_error_and_dedup (fun s => (Except.ok s : Except String String))
      { PyConfig.new with urls := ["a", "b", "a"] }).2.2
      { maxAllowedLoops := some 100, sleepInterval := some 100,
        reconnectTime := some 5, connectionInitTimeout := Option.none,
        timeoutField := some ⟨30⟩,
        defaultConnectionUrl := some ["b", "a"] } (by rfl)⟩
